import Mathlib

/-!
Verification of `dygraph/paddleseg/models/danet.py` (DANet: dual attention
network for semantic segmentation).

Tensors are shallowly embedded as shape-indexed functions over ℚ
(exact arithmetic in place of float32).  The softmax of the framework is
parametrised by the exponential map `e : ℚ → ℚ`; theorems about softmax
assume only positivity and monotonicity of `e`, both satisfied by the real
exponential.  A concrete computable positive monotone map `ratExp` is
provided so that statements can be instantiated on concrete inputs.

Library primitives that the module uses but does not define
(`ConvBNReLU` from `paddleseg.models.common.layer_libs`, the framework's
bilinear resize, the backbone) are modelled as abstract parameters with the
shape signatures the module relies on; `Dropout2d` is modelled in inference
mode, where it is the identity.
-/

/-- A rank-4 feature tensor of shape (n, c, h, w), as in the source's
`(batch, channel, height, width)` layout. -/
abbrev T4 (n c h w : ℕ) := Fin n → Fin c → Fin h → Fin w → ℚ

/-- A rank-3 tensor of shape (n, a, b), the result of the reshapes
`paddle.reshape(x, (n, -1, h * w))` and the batched matrix operands. -/
abbrev T3 (n a b : ℕ) := Fin n → Fin a → Fin b → ℚ

/-- Row-major flattening of a spatial position (i, j) into `h * w`,
as `paddle.reshape` does. -/
def spIdx {h w : ℕ} (i : Fin h) (j : Fin w) : Fin (h * w) :=
  ⟨i.val * w + j.val, by
    calc i.val * w + j.val < i.val * w + w := by omega
      _ = (i.val + 1) * w := by ring
      _ ≤ h * w := mul_le_mul_right' i.isLt w⟩

/-- Row component of a flattened spatial index. -/
def spRow {h w : ℕ} (l : Fin (h * w)) : Fin h :=
  ⟨l.val / w, by
    have hpos : 0 < h * w := lt_of_le_of_lt (Nat.zero_le _) l.isLt
    have hw : 0 < w := by
      rcases Nat.eq_zero_or_pos w with h0 | h0
      · rw [h0, Nat.mul_zero] at hpos; exact absurd hpos (lt_irrefl 0)
      · exact h0
    exact Nat.div_lt_of_lt_mul (Nat.mul_comm h w ▸ l.isLt)⟩

/-- Column component of a flattened spatial index. -/
def spCol {h w : ℕ} (l : Fin (h * w)) : Fin w :=
  ⟨l.val % w, by
    have hpos : 0 < h * w := lt_of_le_of_lt (Nat.zero_le _) l.isLt
    have hw : 0 < w := by
      rcases Nat.eq_zero_or_pos w with h0 | h0
      · rw [h0, Nat.mul_zero] at hpos; exact absurd hpos (lt_irrefl 0)
      · exact h0
    exact Nat.mod_lt _ hw⟩

/-- `paddle.reshape(x, (n, -1, h * w))`: flatten the two spatial axes. -/
def reshape4to3 {n c h w : ℕ} (x : T4 n c h w) : T3 n c (h * w) :=
  fun b ch l => x b ch (spRow l) (spCol l)

/-- `paddle.reshape(x, (n, -1, h, w))`: unflatten the spatial axis. -/
def reshape3to4 {n c h w : ℕ} (x : T3 n c (h * w)) : T4 n c h w :=
  fun b ch i j => x b ch (spIdx i j)

/-- `paddle.transpose(x, (0, 2, 1))`: swap the last two axes. -/
def transpose3 {n a b : ℕ} (x : T3 n a b) : T3 n b a :=
  fun bi p q => x bi q p

/-- `paddle.bmm`: batched matrix multiplication. -/
def bmm {n a b c : ℕ} (x : T3 n a b) (y : T3 n b c) : T3 n a c :=
  fun bi i k => ∑ j, x bi i j * y bi j k

/-- `F.softmax(x, axis=-1)`, parametrised by the exponential map `e`. -/
def softmax3 (e : ℚ → ℚ) {n a b : ℕ} (x : T3 n a b) : T3 n a b :=
  fun bi i j => e (x bi i j) / ∑ k, e (x bi i k)

/-- `nn.Conv2d(ci, co, 1, 1)`: a 1×1 convolution with bias, acting across
channels only. -/
def conv1x1 {n ci h w co : ℕ} (W : Fin co → Fin ci → ℚ) (bias : Fin co → ℚ)
    (x : T4 n ci h w) : T4 n co h w :=
  fun b o i j => bias o + ∑ ch, W o ch * x b ch i j

/-- A concrete computable stand-in for the exponential map: positive and
monotone on ℚ, used to instantiate softmax theorems on concrete inputs. -/
def ratExp (q : ℚ) : ℚ := if 0 ≤ q then q + 1 else (1 - q)⁻¹

/-- The parameters of `PAM` (position attention module): the three 1×1
convolutions and the learnable scalar gate `gamma`
(initialised to 0 by `nn.initializer.Constant(0)`). -/
structure PAMParams (inC : ℕ) where
  query_w : Fin (inC / 8) → Fin inC → ℚ
  query_b : Fin (inC / 8) → ℚ
  key_w : Fin (inC / 8) → Fin inC → ℚ
  key_b : Fin (inC / 8) → ℚ
  value_w : Fin inC → Fin inC → ℚ
  value_b : Fin inC → ℚ
  gamma : ℚ

/-- `PAM.forward` up to the raw similarity `sim = paddle.bmm(query, key)`
of shape (n, h*w, h*w). -/
def PAM.rawSim {n c h w : ℕ} (p : PAMParams c) (x : T4 n c h w) :
    T3 n (h * w) (h * w) :=
  bmm (transpose3 (reshape4to3 (conv1x1 p.query_w p.query_b x)))
    (reshape4to3 (conv1x1 p.key_w p.key_b x))

/-- The spatial attention matrix of `PAM.forward`:
`sim = F.softmax(sim, axis=-1)`. -/
def PAM.attention (e : ℚ → ℚ) {n c h w : ℕ} (p : PAMParams c)
    (x : T4 n c h w) : T3 n (h * w) (h * w) :=
  softmax3 e (PAM.rawSim p x)

/-- `PAM.forward`: value-weighted attention plus the gated residual
`out = gamma * feat + x`. -/
def PAM.forward (e : ℚ → ℚ) {n c h w : ℕ} (p : PAMParams c)
    (x : T4 n c h w) : T4 n c h w :=
  let value := reshape4to3 (conv1x1 p.value_w p.value_b x)
  let feat := reshape3to4 (bmm value (transpose3 (PAM.attention e p x)))
  fun b ch i j => p.gamma * feat b ch i j + x b ch i j

/-- `CAM.forward` up to the raw channel similarity
`sim = paddle.bmm(query, key)` of shape (n, c, c); query and key are the
input itself, reshaped (and transposed for the key). -/
def CAM.rawSim {n c h w : ℕ} (x : T4 n c h w) : T3 n c c :=
  bmm (reshape4to3 x) (transpose3 (reshape4to3 x))

/-- `paddle.max(sim, axis=-1, keepdim=True)`: the maximum of row i of the
batch-b slice of a square channel matrix. -/
def CAM.rowMax {n c : ℕ} (s : T3 n c c) (b : Fin n) (i : Fin c) : ℚ :=
  Finset.univ.sup' ⟨i, Finset.mem_univ i⟩ (fun j => s b i j)

/-- The transformed similarity of `CAM.forward`:
`sim = paddle.max(sim, axis=-1, keepdim=True).expand_as(sim) - sim`. -/
def CAM.stabilized {n c h w : ℕ} (x : T4 n c h w) : T3 n c c :=
  fun b i j => CAM.rowMax (CAM.rawSim x) b i - CAM.rawSim x b i j

/-- The channel attention matrix of `CAM.forward`:
`sim = F.softmax(sim, axis=-1)` applied after the max-minus-value
transform. -/
def CAM.attention (e : ℚ → ℚ) {n c h w : ℕ} (x : T4 n c h w) : T3 n c c :=
  softmax3 e (CAM.stabilized x)

/-- `CAM.forward`: channel attention applied to the value (the input
itself) plus the gated residual `out = gamma * feat + x`. -/
def CAM.forward (e : ℚ → ℚ) (gamma : ℚ) {n c h w : ℕ}
    (x : T4 n c h w) : T4 n c h w :=
  let feat := reshape3to4 (bmm (CAM.attention e x) (reshape4to3 x))
  fun b ch i j => gamma * feat b ch i j + x b ch i j

/-- The shape of a rank-4 tensor, read off from its type indices. -/
def shape4 {n c h w : ℕ} (_ : T4 n c h w) : ℕ × ℕ × ℕ × ℕ := (n, c, h, w)

/-- Claim C1: when the gate parameter gamma of PAM and of CAM holds its
initialisation value 0, both modules act as the identity:
`gamma * feat + x` reduces to `x`. -/
theorem pam_cam_zero_gate_identity (e : ℚ → ℚ) {n c h w : ℕ}
    (p : PAMParams c) (gamma : ℚ) (x : T4 n c h w)
    (hp : p.gamma = 0) (hg : gamma = 0) :
    PAM.forward e p x = x ∧ CAM.forward e gamma x = x := by
  constructor
  · funext b ch i j
    simp [PAM.forward, hp]
  · funext b ch i j
    simp [CAM.forward, hg]

/-- A concrete PAM parameter record at `in_channels = 8` with all weights
zero and the gate at its initialisation value. -/
def wPAM8 : PAMParams 8 :=
  ⟨fun _ _ => 0, fun _ => 0, fun _ _ => 0, fun _ => 0,
   fun _ _ => 0, fun _ => 0, 0⟩

/-- A concrete input tensor of shape (1, 8, 2, 2). -/
def wX8 : T4 1 8 2 2 := fun _ _ _ _ => 1

/-- Witness for claim C1 at a concrete input. -/
theorem pam_cam_zero_gate_identity_witness :
    wPAM8.gamma = 0 ∧ (0 : ℚ) = 0 ∧
      (PAM.forward ratExp wPAM8 wX8 = wX8 ∧
        CAM.forward ratExp 0 wX8 = wX8) :=
  ⟨rfl, rfl, pam_cam_zero_gate_identity ratExp wPAM8 0 wX8 rfl rfl⟩

theorem ratExp_pos (q : ℚ) : 0 < ratExp q := by
  unfold ratExp
  split
  · linarith
  · next hq =>
      push_neg at hq
      exact inv_pos.mpr (by linarith)

theorem ratExp_monotone : Monotone ratExp := by
  intro a b hab
  by_cases ha : 0 ≤ a <;> by_cases hb : 0 ≤ b <;> simp [ratExp, ha, hb]
  · linarith
  · exact absurd (le_trans ha hab) hb
  · push_neg at ha
    have h1 : (1 - a)⁻¹ ≤ 1 := by
      rw [inv_le_one_iff₀]
      right
      linarith
    linarith
  · push_neg at ha hb
    exact inv_anti₀ (by linarith) (by linarith)

/-- Claim C2: in CAM, the similarity entries are replaced by
(row max − entry) before softmax, so any entry holding the maximum raw
similarity of its row receives the minimum softmax weight of that row
(the ranking of the weights is inverted). -/
theorem cam_max_raw_gets_min_weight (e : ℚ → ℚ)
    (hmono : Monotone e) (hpos : ∀ q, 0 < e q) {n c h w : ℕ}
    (x : T4 n c h w) (b : Fin n) (i : Fin c) (jm : Fin c)
    (hjm : CAM.rawSim x b i jm = CAM.rowMax (CAM.rawSim x) b i) :
    ∀ j, CAM.attention e x b i jm ≤ CAM.attention e x b i j := by
  intro j
  have hD : 0 < ∑ k, e (CAM.stabilized x b i k) :=
    Finset.sum_pos (fun k _ => hpos _) ⟨jm, Finset.mem_univ jm⟩
  have hle : CAM.rawSim x b i j ≤ CAM.rawSim x b i jm := by
    rw [hjm]
    exact Finset.le_sup' (fun k => CAM.rawSim x b i k) (Finset.mem_univ j)
  have hnum : e (CAM.stabilized x b i jm) ≤ e (CAM.stabilized x b i j) := by
    apply hmono
    unfold CAM.stabilized
    linarith
  unfold CAM.attention softmax3
  exact div_le_div_of_nonneg_right hnum hD.le

theorem wX8_row_const (j : Fin 8) :
    CAM.rawSim wX8 0 0 j = CAM.rawSim wX8 0 0 0 := by
  simp [CAM.rawSim, bmm, reshape4to3, transpose3, wX8]

theorem wX8_max_at_zero :
    CAM.rawSim wX8 0 0 0 = CAM.rowMax (CAM.rawSim wX8) 0 0 := by
  apply le_antisymm
  · exact Finset.le_sup' (fun k => CAM.rawSim wX8 0 0 k) (Finset.mem_univ 0)
  · apply Finset.sup'_le
    intro j _
    rw [wX8_row_const j]

/-- Witness for claim C2 at a concrete input: every row of the raw channel
similarity of the constant tensor `wX8` is constant, so entry 0 of row 0
holds the row maximum. -/
theorem cam_max_raw_gets_min_weight_witness :
    Monotone ratExp ∧ (∀ q, 0 < ratExp q) ∧
      CAM.rawSim wX8 0 0 0 = CAM.rowMax (CAM.rawSim wX8) 0 0 ∧
      ∀ j, CAM.attention ratExp wX8 0 0 0 ≤ CAM.attention ratExp wX8 0 0 j :=
  ⟨ratExp_monotone, ratExp_pos, wX8_max_at_zero,
    cam_max_raw_gets_min_weight ratExp ratExp_monotone ratExp_pos wX8 0 0 0
      wX8_max_at_zero⟩

/-- Claim C3: PAM and CAM preserve the (n, c, h, w) shape of their input
whenever c is divisible by 8. -/
theorem pam_cam_shape_preservation (e : ℚ → ℚ) {n c h w : ℕ}
    (p : PAMParams c) (gamma : ℚ) (x : T4 n c h w) (hc : 8 ∣ c) :
    shape4 (PAM.forward e p x) = shape4 x ∧
      shape4 (CAM.forward e gamma x) = shape4 x :=
  ⟨rfl, rfl⟩

/-- Witness for claim C3 at c = 8. -/
theorem pam_cam_shape_preservation_witness :
    (8 ∣ 8) ∧
      (shape4 (PAM.forward ratExp wPAM8 wX8) = shape4 wX8 ∧
        shape4 (CAM.forward ratExp 0 wX8) = shape4 wX8) :=
  ⟨by decide, pam_cam_shape_preservation ratExp wPAM8 0 wX8 (by decide)⟩

/-- Claim C4: the spatial attention matrix of PAM, after the softmax over
the last axis, is row-stochastic: every entry is non-negative and every
row sums to exactly 1 (exact arithmetic in place of the float tolerance). -/
theorem pam_attention_row_stochastic (e : ℚ → ℚ) (hpos : ∀ q, 0 < e q)
    {n c h w : ℕ} (p : PAMParams c) (x : T4 n c h w)
    (b : Fin n) (i : Fin (h * w)) :
    (∀ j, 0 ≤ PAM.attention e p x b i j) ∧
      (∑ j, PAM.attention e p x b i j) = 1 := by
  have hD : 0 < ∑ k, e (PAM.rawSim p x b i k) :=
    Finset.sum_pos (fun k _ => hpos _) ⟨i, Finset.mem_univ i⟩
  constructor
  · intro j
    exact le_of_lt (div_pos (hpos _) hD)
  · unfold PAM.attention softmax3
    rw [← Finset.sum_div]
    exact div_self hD.ne'

/-- Witness for claim C4 at a concrete input of shape (1, 8, 2, 2). -/
theorem pam_attention_row_stochastic_witness :
    (∀ q, 0 < ratExp q) ∧
      ((∀ j, 0 ≤ PAM.attention ratExp wPAM8 wX8 0 0 j) ∧
        (∑ j, PAM.attention ratExp wPAM8 wX8 0 0 j) = 1) :=
  ⟨ratExp_pos, pam_attention_row_stochastic ratExp ratExp_pos wPAM8 wX8 0 0⟩

/-- The parameters of the `nn.Sequential(nn.Dropout2d(0.1), nn.Conv2d(ci, co, 1))`
heads of `DAHead`; `Dropout2d` is modelled in inference mode (identity), so
only the 1×1 convolution remains. -/
structure HeadParams (ci co : ℕ) where
  w : Fin co → Fin ci → ℚ
  b : Fin co → ℚ

/-- The parameters and library sub-layers of `DAHead` for `in_channels = inC`
and `num_classes = k`.  The four `ConvBNReLU` blocks are library primitives
(`paddleseg.models.common.layer_libs`), modelled as abstract layers that map
`inC` (resp. `inC / 4`) channels to `inter_channels = inC / 4` channels and
preserve the batch and spatial axes, as the module relies on. -/
structure DAHeadParams (inC k : ℕ) where
  channel_conv : ∀ (n h w : ℕ), T4 n inC h w → T4 n (inC / 4) h w
  position_conv : ∀ (n h w : ℕ), T4 n inC h w → T4 n (inC / 4) h w
  pam : PAMParams (inC / 4)
  cam_gamma : ℚ
  conv1 : ∀ (n h w : ℕ), T4 n (inC / 4) h w → T4 n (inC / 4) h w
  conv2 : ∀ (n h w : ℕ), T4 n (inC / 4) h w → T4 n (inC / 4) h w
  aux_head_pam : HeadParams (inC / 4) k
  aux_head_cam : HeadParams (inC / 4) k
  cls_head : HeadParams (inC / 4) k

/-- The refined channel branch of `DAHead.forward`:
`conv1(cam(channel_conv(feats)))`. -/
def channelBranch (e : ℚ → ℚ) {inC k : ℕ} (p : DAHeadParams inC k)
    {n h w : ℕ} (x : T4 n inC h w) : T4 n (inC / 4) h w :=
  p.conv1 n h w (CAM.forward e p.cam_gamma (p.channel_conv n h w x))

/-- The refined position branch of `DAHead.forward`:
`conv2(pam(position_conv(feats)))`. -/
def positionBranch (e : ℚ → ℚ) {inC k : ℕ} (p : DAHeadParams inC k)
    {n h w : ℕ} (x : T4 n inC h w) : T4 n (inC / 4) h w :=
  p.conv2 n h w (PAM.forward e p.pam (p.position_conv n h w x))

/-- `cam_logit = self.aux_head_cam(channel_feats)` in `DAHead.forward`. -/
def camLogit (e : ℚ → ℚ) {inC k : ℕ} (p : DAHeadParams inC k)
    {n h w : ℕ} (x : T4 n inC h w) : T4 n k h w :=
  conv1x1 p.aux_head_cam.w p.aux_head_cam.b (channelBranch e p x)

/-- `pam_logit = self.aux_head_cam(position_feats)` in `DAHead.forward`:
the source applies `aux_head_cam`, not `aux_head_pam`, to the position
branch. -/
def pamLogit (e : ℚ → ℚ) {inC k : ℕ} (p : DAHeadParams inC k)
    {n h w : ℕ} (x : T4 n inC h w) : T4 n k h w :=
  conv1x1 p.aux_head_cam.w p.aux_head_cam.b (positionBranch e p x)

/-- `logit = self.cls_head(feats_sum)` with
`feats_sum = position_feats + channel_feats` in `DAHead.forward`. -/
def clsLogit (e : ℚ → ℚ) {inC k : ℕ} (p : DAHeadParams inC k)
    {n h w : ℕ} (x : T4 n inC h w) : T4 n k h w :=
  conv1x1 p.cls_head.w p.cls_head.b
    (fun b c i j => positionBranch e p x b c i j + channelBranch e p x b c i j)

/-- A rank-4 tensor of unknown shape, as the elements of the heterogeneous
feature list `feat_list` handed to `DAHead.forward`. -/
structure TensorAny where
  n : ℕ
  c : ℕ
  h : ℕ
  w : ℕ
  data : T4 n c h w

/-- Transport a tensor along an equality of channel counts. -/
def castC {n c cc h w : ℕ} (hc : c = cc) (x : T4 n c h w) : T4 n cc h w :=
  hc ▸ x

/-- `DAHead.forward`: consume `feat_list[-1]` and return
`[logit, cam_logit, pam_logit]`.  An empty list (Python `IndexError`) or a
channel count differing from the declared `in_channels` (a runtime shape
failure inside `channel_conv`) is modelled as `none`. -/
def daheadForward (e : ℚ → ℚ) {inC k : ℕ} (p : DAHeadParams inC k)
    (featList : List TensorAny) : Option (List TensorAny) :=
  match featList.getLast? with
  | none => none
  | some t =>
    if hc : t.c = inC then
      let feats := castC hc t.data
      some [⟨t.n, k, t.h, t.w, clsLogit e p feats⟩,
            ⟨t.n, k, t.h, t.w, camLogit e p feats⟩,
            ⟨t.n, k, t.h, t.w, pamLogit e p feats⟩]
    else none

/-- Claim C5: both auxiliary logits of `DAHead.forward` are produced by the
same auxiliary head `aux_head_cam`; hence whenever the refined channel
branch and the refined position branch coincide, the two auxiliary logits
coincide. -/
theorem aux_logits_share_head (e : ℚ → ℚ) {inC k : ℕ}
    (p : DAHeadParams inC k) {n h w : ℕ} (x : T4 n inC h w)
    (hbr : channelBranch e p x = positionBranch e p x) :
    camLogit e p x = pamLogit e p x := by
  unfold camLogit pamLogit
  rw [hbr]

/-- Concrete head parameters at `in_channels = 4`, `num_classes = 2` whose
two refinement layers collapse both branches to the zero tensor. -/
def wHP : DAHeadParams 4 2 where
  channel_conv := fun _ _ _ _ => fun _ _ _ _ => 0
  position_conv := fun _ _ _ _ => fun _ _ _ _ => 0
  pam := ⟨fun _ _ => 0, fun _ => 0, fun _ _ => 0, fun _ => 0,
    fun _ _ => 0, fun _ => 0, 0⟩
  cam_gamma := 0
  conv1 := fun _ _ _ _ => fun _ _ _ _ => 0
  conv2 := fun _ _ _ _ => fun _ _ _ _ => 0
  aux_head_pam := ⟨fun _ _ => 3, fun _ => 3⟩
  aux_head_cam := ⟨fun _ _ => 1, fun _ => 1⟩
  cls_head := ⟨fun _ _ => 1, fun _ => 1⟩

/-- A concrete input feature map of shape (1, 4, 1, 1). -/
def wF4 : T4 1 4 1 1 := fun _ _ _ _ => 1

/-- Witness for claim C5: under `wHP` both refined branches are the zero
tensor, and the two auxiliary logits agree. -/
theorem aux_logits_share_head_witness :
    channelBranch ratExp wHP wF4 = positionBranch ratExp wHP wF4 ∧
      camLogit ratExp wHP wF4 = pamLogit ratExp wHP wF4 :=
  ⟨rfl, aux_logits_share_head ratExp wHP wF4 rfl⟩

/-- Claim C6: `DAHead.forward` reads only `feat_list[-1]`: two non-empty
feature lists with equal last elements produce equal outputs. -/
theorem dahead_uses_only_last (e : ℚ → ℚ) {inC k : ℕ}
    (p : DAHeadParams inC k) (l1 l2 : List TensorAny)
    (h1 : l1 ≠ []) (h2 : l2 ≠ []) (hlast : l1.getLast? = l2.getLast?) :
    daheadForward e p l1 = daheadForward e p l2 := by
  unfold daheadForward
  rw [hlast]

/-- A concrete feature-list element of shape (1, 4, 1, 1). -/
def wT : TensorAny := ⟨1, 4, 1, 1, wF4⟩

/-- A second, differing feature-list element of shape (1, 7, 3, 2). -/
def wT2 : TensorAny := ⟨1, 7, 3, 2, fun _ _ _ _ => 5⟩

/-- Witness for claim C6 on two concrete lists of different lengths and
different leading elements but the same last element. -/
theorem dahead_uses_only_last_witness :
    ([wT] ≠ ([] : List TensorAny)) ∧ ([wT2, wT] ≠ ([] : List TensorAny)) ∧
      ([wT].getLast? = [wT2, wT].getLast?) ∧
      daheadForward ratExp wHP [wT] = daheadForward ratExp wHP [wT2, wT] :=
  ⟨List.cons_ne_nil wT [], List.cons_ne_nil wT2 [wT], rfl,
    dahead_uses_only_last ratExp wHP [wT] [wT2, wT]
      (List.cons_ne_nil wT []) (List.cons_ne_nil wT2 [wT]) rfl⟩

/-- Replace the (never applied) `aux_head_pam` sub-module of a head
parameter record, keeping every other parameter. -/
def setAuxPam {inC k : ℕ} (p : DAHeadParams inC k)
    (q : HeadParams (inC / 4) k) : DAHeadParams inC k :=
  { p with aux_head_pam := q }

/-- Claim C9: `DAHead.forward` never applies its sub-module `aux_head_pam`;
all three output logits are unchanged under any replacement of
`aux_head_pam`'s parameters. -/
theorem aux_head_pam_unused (e : ℚ → ℚ) {inC k : ℕ}
    (p : DAHeadParams inC k) (q : HeadParams (inC / 4) k)
    (l : List TensorAny) :
    daheadForward e (setAuxPam p q) l = daheadForward e p l := rfl

/-- The outcome of `DANet.init_weight`: either nothing was loaded, or the
external utility `utils.load_pretrained_model` was invoked on a path. -/
inductive WeightInit where
  | noop : WeightInit
  | loaded : String → WeightInit
deriving DecidableEq

/-- `DANet.init_weight`, with the filesystem abstracted as the predicate
`fsExists` standing for `os.path.exists`: with no pretrained path nothing
happens; with a path, an existing file is handed to the external loader and
a missing file raises
`Exception('Pretrained model is not found: ...')`. -/
def danetInitWeight (fsExists : String → Bool) :
    Option String → Except String WeightInit
  | none => Except.ok WeightInit.noop
  | some p =>
    if fsExists p then Except.ok (WeightInit.loaded p)
    else Except.error ("Pretrained model is not found: " ++ p)

/-- `DANet.__init__`: the backbone and head are assembled, then
`self.init_weight(pretrained)` runs as the last step of construction; an
exception there aborts construction, so no model value is produced. -/
def danetConstruct {inC k : ℕ} (head : DAHeadParams inC k)
    (indices : List ℕ) (fsExists : String → Bool)
    (pretrained : Option String) :
    Except String (DAHeadParams inC k × List ℕ) :=
  match danetInitWeight fsExists pretrained with
  | Except.ok _ => Except.ok (head, indices)
  | Except.error msg => Except.error msg

/-- Claim C7: constructing `DANet` with a pretrained path that does not
exist raises the configuration exception, hence yields no constructed model
on which forward could run, and the external loader is never reached (the
init outcome is never `loaded`). -/
theorem danet_missing_pretrained_raises {inC k : ℕ}
    (head : DAHeadParams inC k) (indices : List ℕ)
    (fsExists : String → Bool) (p : String) (hfs : fsExists p = false) :
    danetConstruct head indices fsExists (some p) =
      Except.error ("Pretrained model is not found: " ++ p) ∧
      (∀ m, danetConstruct head indices fsExists (some p) ≠ Except.ok m) ∧
      (∀ q, danetInitWeight fsExists (some p) ≠
        Except.ok (WeightInit.loaded q)) := by
  refine ⟨?_, ?_, ?_⟩
  · simp [danetConstruct, danetInitWeight, hfs]
  · intro m
    simp [danetConstruct, danetInitWeight, hfs]
  · intro q
    simp [danetInitWeight, hfs]

/-- Witness for claim C7 on an empty filesystem and the path named by the
specification. -/
theorem danet_missing_pretrained_raises_witness :
    ((fun _ => false) "/nonexistent/path.pdparams" = false) ∧
      (danetConstruct wHP [0] (fun _ => false)
          (some "/nonexistent/path.pdparams") =
        Except.error
          ("Pretrained model is not found: " ++ "/nonexistent/path.pdparams") ∧
        (∀ m, danetConstruct wHP [0] (fun _ => false)
          (some "/nonexistent/path.pdparams") ≠ Except.ok m) ∧
        (∀ q, danetInitWeight (fun _ => false)
          (some "/nonexistent/path.pdparams") ≠
            Except.ok (WeightInit.loaded q))) :=
  ⟨rfl, danet_missing_pretrained_raises wHP [0] (fun _ => false)
    "/nonexistent/path.pdparams" rfl⟩

/-- Claim C10: with `pretrained=None` (the default), `init_weight` is a
no-op: construction succeeds with the head parameters untouched, no loading
happens, and the result does not depend on the filesystem at all. -/
theorem danet_pretrained_none_noop {inC k : ℕ} (head : DAHeadParams inC k)
    (indices : List ℕ) (fsExists : String → Bool) :
    danetConstruct head indices fsExists none = Except.ok (head, indices) ∧
      danetInitWeight fsExists none = Except.ok WeightInit.noop ∧
      (∀ fs2 : String → Bool,
        danetInitWeight fsExists none = danetInitWeight fs2 none) :=
  ⟨rfl, rfl, fun _ => rfl⟩

/-- The framework's `F.resize_bilinear`, a library primitive outside this
module: an abstract family of resize maps, one for every source and target
shape, preserving batch and channel axes. -/
def ResizeOp : Type :=
  ∀ (n c h w hh ww : ℕ), T4 n c h w → T4 n c hh ww

/-- `DANet.forward`: run the (abstract) backbone, select the feature maps
at `backbone_indices` (Python raises on an out-of-range index: `none`),
run the head, and bilinearly resize each logit map to the input's spatial
size `x.shape[2:]`. -/
def danetForward (e : ℚ → ℚ) (rb : ResizeOp) {inC k : ℕ}
    (p : DAHeadParams inC k)
    (backbone : ∀ (n h w : ℕ), T4 n 3 h w → List TensorAny)
    (indices : List ℕ) {n hin win : ℕ} (x : T4 n 3 hin win) :
    Option (List TensorAny) :=
  let feats := backbone n hin win x
  match indices.mapM (fun i => feats[i]?) with
  | none => none
  | some sel =>
    match daheadForward e p sel with
    | none => none
    | some preds =>
      some (preds.map (fun t => ⟨t.n, t.c, hin, win,
        rb t.n t.c t.h t.w hin win t.data⟩))

/-- Claim C8: whenever the index selection succeeds and the last selected
feature map has the declared channel count (and the backbone preserved the
batch axis), `DANet.forward` returns exactly three tensors, each the
bilinear resize of one of the head's logit maps to the input's spatial
size, each of shape (n, num_classes, hin, win), in the order
[main logit, channel-auxiliary logit, position-auxiliary logit]. -/
theorem danet_forward_three_resized_logits (e : ℚ → ℚ) (rb : ResizeOp)
    {inC k : ℕ} (p : DAHeadParams inC k)
    (backbone : ∀ (n h w : ℕ), T4 n 3 h w → List TensorAny)
    (indices : List ℕ) {n hin win : ℕ} (x : T4 n 3 hin win)
    (sel : List TensorAny) (th tw : ℕ) (td : T4 n inC th tw)
    (hsel : indices.mapM (fun i => (backbone n hin win x)[i]?) = some sel)
    (hlast : sel.getLast? = some ⟨n, inC, th, tw, td⟩) :
    danetForward e rb p backbone indices x =
      some [⟨n, k, hin, win, rb n k th tw hin win (clsLogit e p td)⟩,
            ⟨n, k, hin, win, rb n k th tw hin win (camLogit e p td)⟩,
            ⟨n, k, hin, win, rb n k th tw hin win (pamLogit e p td)⟩] := by
  simp only [danetForward, hsel, daheadForward, hlast]
  simp [castC]

/-- A concrete backbone returning one feature map of shape (1, 4, 1, 1). -/
def wBackbone : ∀ (n h w : ℕ), T4 n 3 h w → List TensorAny :=
  fun _ _ _ _ => [wT]

/-- A trivial concrete instance of the abstract resize family. -/
def wResize : ResizeOp := fun _ _ _ _ _ _ _ => fun _ _ _ _ => 0

/-- A concrete input image of shape (1, 3, 2, 2). -/
def wImg : T4 1 3 2 2 := fun _ _ _ _ => 1

/-- Witness for claim C8 on a concrete one-map backbone. -/
theorem danet_forward_three_resized_logits_witness :
    ([0].mapM (fun i => (wBackbone 1 2 2 wImg)[i]?) = some [wT]) ∧
      ([wT].getLast? = some ⟨1, 4, 1, 1, wF4⟩) ∧
      danetForward ratExp wResize wHP wBackbone [0] wImg =
        some [⟨1, 2, 2, 2, wResize 1 2 1 1 2 2 (clsLogit ratExp wHP wF4)⟩,
              ⟨1, 2, 2, 2, wResize 1 2 1 1 2 2 (camLogit ratExp wHP wF4)⟩,
              ⟨1, 2, 2, 2, wResize 1 2 1 1 2 2 (pamLogit ratExp wHP wF4)⟩] :=
  ⟨rfl, rfl,
    danet_forward_three_resized_logits ratExp wResize wHP wBackbone [0] wImg
      [wT] 1 1 wF4 rfl rfl⟩
